import Mathlib

/-!
Verification of the UDP telemetry ingestion pipeline of prusa_exporter
(package `udp`: `transform.go` and `prometheus.go`).

Go strings are modelled as lists of characters (`GoStr`); the records the
pipeline handles are ASCII, so byte indexing and character indexing agree.
Go's `float64` is idealised as an exact value (`GoFloat`, a rational plus
the IEEE special values infinity and NaN); rounding of parsed literals and
of widened integers is abstracted away. Library functions from `strings`
and `strconv` that the code calls are modelled explicitly below, faithful
to their documented behaviour on the inputs this pipeline can produce
(hexadecimal float literals and digit-separator underscores, which no
telemetry record contains, are omitted from the float parser model).
Fallible Go functions become `Except`; the one reachable runtime panic in
`parseLineProtocol` (an out-of-range slice) is made explicit as a
distinguished outcome.
-/

deriving instance DecidableEq for Except

/-- Go strings, modelled as lists of characters. -/
abbrev GoStr := List Char

/-- Coercion from Lean string literals into the Go string model. -/
def str (s : String) : GoStr := s.data

/-- Go's `strings.Split(s, sep)` for a one-character separator: the result
is never empty, and splitting the empty string yields `[[]]`. -/
def split (sep : Char) : GoStr → List GoStr
  | [] => [[]]
  | c :: rest =>
    match split sep rest with
    | [] => [[]]
    | t :: ts => if c = sep then [] :: t :: ts else (c :: t) :: ts

/-- Go's `strings.Join(parts, sep)` for a one-character separator. -/
def sjoin (sep : Char) : List GoStr → GoStr
  | [] => []
  | [t] => t
  | t :: ts => t ++ sep :: sjoin sep ts

/-- Go's `strings.SplitN(s, sep, 2)` for a one-character separator: at most
one split, at the first occurrence of the separator. -/
def splitN2 (sep : Char) (s : GoStr) : List GoStr :=
  let pre := s.takeWhile (fun c => ¬ c = sep)
  if pre.length = s.length then [s] else [pre, s.drop (pre.length + 1)]

/-- Lookup in a Go map modelled as an association list. -/
def mapGet {α : Type} : List (GoStr × α) → GoStr → Option α
  | [], _ => none
  | (k', v) :: rest, k => if k' = k then some v else mapGet rest k

/-- Update of a Go map modelled as an association list: overwrite the
existing binding in place, or append a new one. -/
def mapSet {α : Type} : List (GoStr × α) → GoStr → α → List (GoStr × α)
  | [], k, v => [(k, v)]
  | (k', v') :: rest, k, v =>
    if k' = k then (k, v) :: rest else (k', v') :: mapSet rest k v

/-- Scanner state of `splitLine` (transform.go:179-183). -/
inductive ScanState
  | normal
  | quoted
deriving DecidableEq

/-- Worker for `splitLine`: `cur` holds the characters of the current
token in reverse. A backslash consumes the following character verbatim in
either state (Go advances `i` past it); a token is emitted only when
nonempty; the tail of the input past an unterminated token is emitted at
end of input. -/
def splitLineAux : ScanState → List Char → List Char → List GoStr
  | _, cur, [] => if cur = [] then [] else [cur.reverse]
  | ScanState.normal, cur, c :: rest =>
    if c = ' ' then
      if cur = [] then splitLineAux ScanState.normal [] rest
      else cur.reverse :: splitLineAux ScanState.normal [] rest
    else if c = '\\' then
      match rest with
      | [] => [(c :: cur).reverse]
      | d :: rest' => splitLineAux ScanState.normal (d :: c :: cur) rest'
    else if c = '"' then splitLineAux ScanState.quoted (c :: cur) rest
    else splitLineAux ScanState.normal (c :: cur) rest
  | ScanState.quoted, cur, c :: rest =>
    if c = '\\' then
      match rest with
      | [] => [(c :: cur).reverse]
      | d :: rest' => splitLineAux ScanState.quoted (d :: c :: cur) rest'
    else if c = '"' then splitLineAux ScanState.normal (c :: cur) rest
    else splitLineAux ScanState.quoted (c :: cur) rest

/-- Quote- and backslash-aware tokenizer `splitLine` (transform.go:175-219). -/
def splitLine (s : GoStr) : List GoStr := splitLineAux ScanState.normal [] s

/-- Go's `strconv.ParseBool`, which accepts exactly eleven literals. -/
def goParseBool (s : GoStr) : Option Bool :=
  if s = str "1" ∨ s = str "t" ∨ s = str "T" ∨ s = str "TRUE" ∨
      s = str "true" ∨ s = str "True" then some true
  else if s = str "0" ∨ s = str "f" ∨ s = str "F" ∨ s = str "FALSE" ∨
      s = str "false" ∨ s = str "False" then some false
  else none

/-- Numeric value of a list of decimal digit characters. -/
def digitsToNat (ds : List Char) : Nat :=
  ds.foldl (fun a c => a * 10 + (c.toNat - 48)) 0

/-- Go's `strconv.ParseInt(s, 10, 64)`: optional sign, then a nonempty run
of decimal digits making up the whole string, with the signed 64-bit range
check (out-of-range values yield `ErrRange`, hence `none` here). -/
def goParseInt64 (s : GoStr) : Option Int :=
  let (neg, digits) :=
    match s with
    | '+' :: r => (false, r)
    | '-' :: r => (true, r)
    | _ => (false, s)
  if digits = [] ∨ ¬ digits.all Char.isDigit then none
  else
    let v : Int := if neg then -(digitsToNat digits : Int) else (digitsToNat digits : Int)
    if -(2 ^ 63) ≤ v ∧ v ≤ 2 ^ 63 - 1 then some v else none

/-- Idealised `float64` value: an exact rational, or one of the IEEE
special values that `strconv.ParseFloat` can produce. -/
inductive GoFloat
  | finite (q : ℚ)
  | inf (neg : Bool)
  | nan
deriving DecidableEq

/-- Decimal part of Go's `strconv.ParseFloat`: optional sign, a mantissa
of decimal digits with at most one point and at least one digit, and an
optional `e`/`E` exponent with optional sign; the whole string must be
consumed. The value is kept exact. -/
def parseDecimal (s : GoStr) : Option ℚ :=
  let (neg, s1) :=
    match s with
    | '+' :: rest => (false, rest)
    | '-' :: rest => (true, rest)
    | _ => (false, s)
  let intPart := s1.takeWhile Char.isDigit
  let s2 := s1.drop intPart.length
  let (fracPart, s3) :=
    match s2 with
    | '.' :: rest => (rest.takeWhile Char.isDigit, rest.drop (rest.takeWhile Char.isDigit).length)
    | _ => ([], s2)
  if intPart.length + fracPart.length = 0 then none
  else
    let mant : ℚ := (digitsToNat (intPart ++ fracPart) : ℚ) / (10 : ℚ) ^ fracPart.length
    let signed := if neg then -mant else mant
    match s3 with
    | [] => some signed
    | c :: rest =>
      if c = 'e' ∨ c = 'E' then
        let (eneg, r1) :=
          match rest with
          | '+' :: r => (false, r)
          | '-' :: r => (true, r)
          | _ => (false, rest)
        let edigits := r1.takeWhile Char.isDigit
        if edigits.length = 0 ∨ ¬ edigits.length = r1.length then none
        else some (if eneg then signed / (10 : ℚ) ^ digitsToNat edigits
          else signed * (10 : ℚ) ^ digitsToNat edigits)
      else none

/-- Go's `strconv.ParseFloat(s, 64)`: the case-insensitive special forms
`inf`, `infinity` (with optional sign) and `nan`, else a decimal literal. -/
def goParseFloat (s : GoStr) : Option GoFloat :=
  let lower := s.map Char.toLower
  if lower = str "inf" ∨ lower = str "+inf" ∨ lower = str "infinity" ∨
      lower = str "+infinity" then some (GoFloat.inf false)
  else if lower = str "-inf" ∨ lower = str "-infinity" then some (GoFloat.inf true)
  else if lower = str "nan" then some GoFloat.nan
  else (parseDecimal s).map GoFloat.finite

/-- Dynamic types a parsed field value can carry, mirroring the values the
parser stores into `point.Fields` (transform.go:146-169). -/
inductive FieldValue
  | int64 (n : Int)
  | float64 (f : GoFloat)
  | boolean (b : Bool)
  | strv (s : GoStr)
deriving DecidableEq

/-- Structured record produced by the parser (transform.go:13-17). The Go
maps for tags and fields are modelled as association lists updated with Go
map semantics (`mapSet`). -/
structure Point where
  measurement : GoStr
  tags : List (GoStr × GoStr)
  fields : List (GoStr × FieldValue)
deriving DecidableEq

/-- Outcome of typing one field value: a value, or the runtime panic that
Go raises in the quoted-string branch when the slice bounds are inverted. -/
inductive FieldResult
  | val (v : FieldValue)
  | panics
deriving DecidableEq

/-- Typing of one field value string (transform.go:146-169): try trailing
`i` with `ParseInt`, then `ParseBool`, then `ParseFloat`, then a surrounding
pair of double quotes, else keep the raw string. Go evaluates
`val[1:len(val)-1]` in the quote branch; when `val` is the single character
`"` both the prefix and the suffix test succeed and the slice is the
out-of-range `val[1:0]`, a runtime panic. -/
def typeFieldValue (val : GoStr) : FieldResult :=
  match (if (str "i").isSuffixOf val then goParseInt64 val.dropLast else none) with
  | some n => FieldResult.val (FieldValue.int64 n)
  | none =>
    match goParseBool val with
    | some b => FieldResult.val (FieldValue.boolean b)
    | none =>
      match goParseFloat val with
      | some f => FieldResult.val (FieldValue.float64 f)
      | none =>
        if (str "\"").isPrefixOf val ∧ (str "\"").isSuffixOf val then
          if val.length < 2 then FieldResult.panics
          else FieldResult.val (FieldValue.strv (val.drop 1).dropLast)
        else FieldResult.val (FieldValue.strv val)

/-- Outcome of `parseLineProtocol`: a point, a formatting error carrying
the Go error message, or a runtime panic. -/
inductive ParseOutcome
  | ok (p : Point)
  | err (msg : GoStr)
  | panics
deriving DecidableEq

/-- Tag-segment loop of `parseLineProtocol` (transform.go:125-132): each
comma-separated token after the measurement must split on `=` into exactly
two parts; the first failure aborts with that token in the error. -/
def parseTags (acc : List (GoStr × GoStr)) : List GoStr → Except GoStr (List (GoStr × GoStr))
  | [] => Except.ok acc
  | tag :: rest =>
    match splitN2 '=' tag with
    | [k, v] => parseTags (mapSet acc k v) rest
    | _ => Except.error tag

/-- Field-segment loop of `parseLineProtocol` (transform.go:134-170): each
comma-separated token must split on `=` into a key and a value; the value
is typed by `typeFieldValue`, which can panic. -/
def parseFields (acc : List (GoStr × FieldValue)) : List GoStr → ParseOutcome ⊕ List (GoStr × FieldValue)
  | [] => Sum.inr acc
  | field :: rest =>
    match splitN2 '=' field with
    | [k, v] =>
      match typeFieldValue v with
      | FieldResult.panics => Sum.inl ParseOutcome.panics
      | FieldResult.val fv => parseFields (mapSet acc k fv) rest
    | _ => Sum.inl (ParseOutcome.err (str "invalid field format: " ++ field))

/-- Parser `parseLineProtocol` (transform.go:113-173): tokenize with
`splitLine`, require 2 or 3 top-level segments, comma-split the first into
measurement and tags and the second into typed fields; a third segment
(the timestamp) is accepted but ignored. -/
def parseLineProtocol (line : GoStr) : ParseOutcome :=
  let parts := splitLine line
  if parts.length < 2 ∨ parts.length > 3 then
    ParseOutcome.err (str "invalid udp format: " ++ line)
  else
    let measurementTagParts := split ',' (parts.headD [])
    match parseTags [] measurementTagParts.tail with
    | Except.error tag => ParseOutcome.err (str "invalid tag format: " ++ tag)
    | Except.ok tags =>
      match parseFields [] (split ',' (parts.tail.headD [])) with
      | Sum.inl out => out
      | Sum.inr fields =>
        ParseOutcome.ok { measurement := measurementTagParts.headD [], tags := tags, fields := fields }

/-- Function `parseFirstMessage` (transform.go:88-95): split on spaces,
drop the leading token and rejoin. `strings.Split` never returns an empty
slice, so the error branch is unreachable. -/
def parseFirstMessage (message : GoStr) : Except GoStr GoStr :=
  match split ' ' message with
  | [] => Except.error (str "splitted message is empty")
  | _ :: rest => Except.ok (sjoin ' ' rest)

/-- Identity labels appended by `updateMetric` (transform.go:102): the
device MAC and the host part of the source address. -/
def macSuffix (mac ip : GoStr) : GoStr :=
  str ",printer_mac=" ++ mac ++ str ",printer_address=" ++ (split ':' ip).headD []

/-- Function `updateMetric` (transform.go:97-104): rewrite the first token
by prefixing the metric-name prefix and appending the identity labels.
The error branch requires an empty token slice, which `strings.Split`
never produces. -/
def updateMetric (splitted : List GoStr) (pfx mac ip : GoStr) : Except GoStr (List GoStr) :=
  match splitted with
  | [] => Except.error (str "splitted message is empty")
  | s0 :: rest => Except.ok ((pfx ++ s0 ++ macSuffix mac ip) :: rest)

/-- Per-line rewriting step of the loop in `processMessage`
(transform.go:76-84): split on spaces, rewrite via `updateMetric`, rejoin;
on an `updateMetric` error the loop leaves the line unchanged (`continue`
without writing back). -/
def rewriteLine (line pfx mac ip : GoStr) : GoStr :=
  match updateMetric (split ' ' line) pfx mac ip with
  | Except.error _ => line
  | Except.ok splitted => sjoin ' ' splitted

/-- Frame decomposer `processMessage` (transform.go:61-86): split the body
on newlines, strip the sequence token from line 0 via `parseFirstMessage`,
move the remainder of line 0 to the end of the list, and rewrite every
line with `updateMetric`. -/
def processMessage (message mac pfx ip : GoStr) : Except GoStr (List GoStr) :=
  let messageSplit := split '\n' message
  if messageSplit.length = 0 then Except.error (str "message is empty")
  else
    match parseFirstMessage (messageSplit.headD []) with
    | Except.error e => Except.error (str "error parsing first message: " ++ e)
    | Except.ok firstMessage =>
      Except.ok ((messageSplit.tail ++ [firstMessage]).map (fun line => rewriteLine line pfx mac ip))

/-- Catalog state of the registry (prometheus.go:26-30): the set of metric
names that exist (keys of the `metrics` map; the `GaugeVec` values are
abstracted) and the per-name frozen label-name lists (the `labels` map). -/
structure Registry where
  metrics : List GoStr
  labels : List (GoStr × List GoStr)
deriving DecidableEq

/-- Registry state right after `Init` (prometheus.go:33-42): the
`last_push` gauge is entered into the `metrics` map but not the `labels`
map. -/
def initState : Registry := { metrics := [str "last_push"], labels := [] }

/-- One emitted series update: the metric name, the point it came from,
the resolved label values and the coerced sample value. -/
structure Update where
  name : GoStr
  pt : Point
  labelValues : List GoStr
  value : GoFloat
deriving DecidableEq

/-- Function `getLabels` (prometheus.go:87-93): the tag keys of a point. -/
def getLabels (tags : List (GoStr × GoStr)) : List GoStr := tags.map (fun kv => kv.1)

/-- Dynamic values `toFloat64` can receive (prometheus.go:96-140): the Go
`interface{}` cases the switch distinguishes, plus a default. -/
inductive GoValue
  | int (n : Int)
  | int64 (n : Int)
  | float64 (f : GoFloat)
  | boolean (b : Bool)
  | null
  | strv (s : GoStr)
  | other
deriving DecidableEq

/-- View of a parsed field value as the dynamic value stored in the
`interface{}`-typed fields map. -/
def FieldValue.toGoValue : FieldValue → GoValue
  | FieldValue.int64 n => GoValue.int64 n
  | FieldValue.float64 f => GoValue.float64 f
  | FieldValue.boolean b => GoValue.boolean b
  | FieldValue.strv s => GoValue.strv s

/-- Value coercer `toFloat64` (prometheus.go:95-141): integers and floats
pass through, booleans map to 1/0, nil maps to 0, material names map
through the fixed table, `---` to -1, any other string and any unsupported
type to 0. -/
def toFloat64 (value : GoValue) : GoFloat :=
  match value with
  | GoValue.int n => GoFloat.finite n
  | GoValue.int64 n => GoFloat.finite n
  | GoValue.float64 f => f
  | GoValue.boolean b => if b then GoFloat.finite 1 else GoFloat.finite 0
  | GoValue.null => GoFloat.finite 0
  | GoValue.strv v =>
    if v = str "PLA" then GoFloat.finite 1
    else if v = str "PETG" then GoFloat.finite 2
    else if v = str "ASA" then GoFloat.finite 3
    else if v = str "PC" then GoFloat.finite 4
    else if v = str "PVB" then GoFloat.finite 5
    else if v = str "ABS" then GoFloat.finite 6
    else if v = str "HIPS" then GoFloat.finite 7
    else if v = str "PP" then GoFloat.finite 8
    else if v = str "FLEX" then GoFloat.finite 9
    else if v = str "PA" then GoFloat.finite 10
    else if v = str "---" then GoFloat.finite (-1)
    else GoFloat.finite 0
  | GoValue.other => GoFloat.finite 0

/-- Metric naming rule of `registerMetric` (prometheus.go:48-53): the
measurement, with `_key` appended unless the key is `v` or `value`. -/
def metricNameOf (p : Point) (key : GoStr) : GoStr :=
  if ¬ key = str "v" ∧ ¬ key = str "value" then p.measurement ++ str "_" ++ key
  else p.measurement

/-- Catalog mutation of `registerMetric` (prometheus.go:56-72): an unseen
metric name is entered into both maps, freezing the label names from the
point's current tag keys; a seen name leaves the catalog unchanged. -/
def catalogStep (r : Registry) (p : Point) (metricName : GoStr) : Registry :=
  if metricName ∈ r.metrics then r
  else { metrics := r.metrics ++ [metricName],
         labels := mapSet r.labels metricName (getLabels p.tags) }

/-- Body of the per-field loop of `registerMetric` (prometheus.go:47-84):
compute the metric name, create the family (freezing its label names) when
the name is unseen, then resolve label values against the frozen list with
empty-string fallback and emit one gauge update. -/
def registerMetricField (r : Registry) (p : Point) (kv : GoStr × FieldValue) : Registry × Update :=
  let metricName := metricNameOf p kv.1
  let r' := catalogStep r p metricName
  let labelValues := ((mapGet r'.labels metricName).getD []).map
    (fun label => (mapGet p.tags label).getD [])
  (r', { name := metricName, pt := p, labelValues := labelValues,
         value := toFloat64 kv.2.toGoValue })

/-- Worker iterating the per-field loop of `registerMetric` over the
fields of a point, threading the catalog state. -/
def registerMetricAux (r : Registry) (p : Point) : List (GoStr × FieldValue) → Registry × List Update
  | [] => (r, [])
  | kv :: rest =>
    let ru := registerMetricField r p kv
    let rus := registerMetricAux ru.1 p rest
    (rus.1, ru.2 :: rus.2)

/-- Function `registerMetric` (prometheus.go:44-85): one catalog update
per field of the point. -/
def registerMetric (r : Registry) (p : Point) : Registry × List Update :=
  registerMetricAux r p p.fields

/-- Per-line loop of `process` (transform.go:34-43): parse each rewritten
line and register the point, skipping lines whose parse fails; a panic in
the parser aborts the whole process (`none`). -/
def processLines (r : Registry) : List GoStr → Option (Registry × List Update)
  | [] => some (r, [])
  | line :: rest =>
    match parseLineProtocol line with
    | ParseOutcome.panics => none
    | ParseOutcome.err _ => processLines r rest
    | ParseOutcome.ok p =>
      let ru := registerMetric r p
      match processLines ru.1 rest with
      | none => none
      | some rus => some (rus.1, ru.2 ++ rus.2)

/-- Sequence of `registerMetric` calls against the catalog, collecting all
emitted updates. -/
def runPoints (r : Registry) : List Point → Registry × List Update
  | [] => (r, [])
  | p :: ps =>
    let ru := registerMetric r p
    let rus := runPoints ru.1 ps
    (rus.1, ru.2 ++ rus.2)

/-- Catalog invariant: every name with a frozen label list is present in
the metrics map. It holds after `Init` and is preserved by
`registerMetric`, which writes both maps together. -/
def labelsCovered (r : Registry) : Prop :=
  ∀ n, (mapGet r.labels n).isSome → n ∈ r.metrics

/-- Claim-side description of the first-line rewrite: the line with its
leading whitespace-delimited token removed together with the delimiter
(empty when the line has no space). -/
def stripLeadingToken (s : GoStr) : GoStr :=
  (s.dropWhile (fun c => ¬ c = ' ')).drop 1

/-- Claim-side rewrite of C2: the identity labels inserted immediately
after the measurement name and before any tags already present on the
token. -/
def specC2Token (tok pfx mac ip : GoStr) : GoStr :=
  let parts := split ',' tok
  pfx ++ parts.headD [] ++ macSuffix mac ip ++
    (match parts.tail with
     | [] => []
     | ts => ',' :: sjoin ',' ts)

/-- Claim C2 at one line: the rewritten line is the claimed token followed
by the remaining space-separated tokens. -/
def claimC2At (line pfx mac ip : GoStr) : Prop :=
  rewriteLine line pfx mac ip =
    sjoin ' ' (specC2Token ((split ' ' line).headD []) pfx mac ip :: (split ' ' line).tail)

/-- Claim-side typing of C5: five ordered cases with case (b) matching
exactly the literals `true` and `false` and case (e) never an error. -/
def specC5Typing (v : GoStr) : FieldValue :=
  if (str "i").isSuffixOf v ∧ (goParseInt64 v.dropLast).isSome then
    FieldValue.int64 ((goParseInt64 v.dropLast).getD 0)
  else if v = str "true" then FieldValue.boolean true
  else if v = str "false" then FieldValue.boolean false
  else if (goParseFloat v).isSome then
    FieldValue.float64 ((goParseFloat v).getD GoFloat.nan)
  else if (str "\"").isPrefixOf v ∧ (str "\"").isSuffixOf v then
    FieldValue.strv ((v.drop 1).dropLast)
  else FieldValue.strv v

/-- Claim C5 at one value string: the parser types it as the claim says,
with no error and no panic. -/
def claimC5At (v : GoStr) : Prop :=
  typeFieldValue v = FieldResult.val (specC5Typing v)

/-- Amended typing rule of C5: case (b) accepts the full `strconv.ParseBool`
literal set, and the quote case panics on the one-character value `"`. -/
def specC5Amended (v : GoStr) : FieldResult :=
  if (str "i").isSuffixOf v ∧ (goParseInt64 v.dropLast).isSome then
    FieldResult.val (FieldValue.int64 ((goParseInt64 v.dropLast).getD 0))
  else if v = str "1" ∨ v = str "t" ∨ v = str "T" ∨ v = str "TRUE" ∨
      v = str "true" ∨ v = str "True" then
    FieldResult.val (FieldValue.boolean true)
  else if v = str "0" ∨ v = str "f" ∨ v = str "F" ∨ v = str "FALSE" ∨
      v = str "false" ∨ v = str "False" then
    FieldResult.val (FieldValue.boolean false)
  else if (goParseFloat v).isSome then
    FieldResult.val (FieldValue.float64 ((goParseFloat v).getD GoFloat.nan))
  else if v = str "\"" then FieldResult.panics
  else if (str "\"").isPrefixOf v ∧ (str "\"").isSuffixOf v then
    FieldResult.val (FieldValue.strv ((v.drop 1).dropLast))
  else FieldResult.val (FieldValue.strv v)

/-- Material enumeration table of the value coercer, including the
no-material sentinel. -/
def materialTable : List GoStr :=
  [str "PLA", str "PETG", str "ASA", str "PC", str "PVB", str "ABS",
   str "HIPS", str "PP", str "FLEX", str "PA", str "---"]

/-- Record of claim C8: `a="x\"y" b=1i` with an escaped quote inside the
quoted region. -/
def recC8 : GoStr := str "a=\"x\\\"y\" b=1i"

/-- Point the parser actually produces for `recC8`: the first token
(including the quoted part) is the measurement segment and only `b` is a
field. -/
def ptC8 : Point :=
  { measurement := str "a=\"x\\\"y\"", tags := [], fields := [(str "b", FieldValue.int64 1)] }

/-- Point produced when the same two pairs appear as a proper
comma-separated fields segment: the stored string keeps the backslash. -/
def ptC8Fields : Point :=
  { measurement := str "m", tags := [],
    fields := [(str "a", FieldValue.strv (str "x\\\"y")), (str "b", FieldValue.int64 1)] }

/-- Claim C8 as stated: two top-level segments, and exactly the two fields
`a` (stored with the escaped quote unescaped) and `b`. -/
def claimC8 : Prop :=
  (splitLine recC8).length = 2 ∧
  ∃ p : Point, parseLineProtocol recC8 = ParseOutcome.ok p ∧
    p.fields.length = 2 ∧
    mapGet p.fields (str "a") = some (FieldValue.strv (str "x\"y")) ∧
    mapGet p.fields (str "b") = some (FieldValue.int64 1)

/-- Sample point freezing metric `m` with label schema `[t]`. -/
def pointA : Point :=
  { measurement := str "m", tags := [(str "t", str "x")],
    fields := [(str "v", FieldValue.int64 1)] }

/-- Sample point updating metric `m` with a tag key outside the frozen
schema. -/
def pointB : Point :=
  { measurement := str "m", tags := [(str "other", str "y")],
    fields := [(str "v", FieldValue.int64 2)] }


lemma split_ne_nil (sep : Char) (s : GoStr) : ¬ split sep s = [] := by
  cases s with
  | nil => simp [split]
  | cons c rest =>
    simp only [split]
    cases h : split sep rest with
    | nil => simp
    | cons t ts => by_cases hc : c = sep <;> simp [hc]

lemma sjoin_cons_cons (sep : Char) (t t' : GoStr) (ts : List GoStr) :
    sjoin sep (t :: t' :: ts) = t ++ sep :: sjoin sep (t' :: ts) := rfl

lemma sjoin_split (sep : Char) (s : GoStr) : sjoin sep (split sep s) = s := by
  induction s with
  | nil => rfl
  | cons c rest ih =>
    cases h : split sep rest with
    | nil => exact absurd h (split_ne_nil sep rest)
    | cons t ts =>
      rw [h] at ih
      by_cases hc : c = sep
      · simp only [split, h, if_pos hc, sjoin_cons_cons, List.nil_append]
        rw [ih, hc]
      · simp only [split, h, if_neg hc]
        cases ts with
        | nil => simpa [sjoin] using ih
        | cons t' ts' =>
          simp only [sjoin_cons_cons] at ih ⊢
          rw [List.cons_append, ih]

lemma sjoin_split_tail (sep : Char) (s : GoStr) :
    sjoin sep ((split sep s).tail) = (s.dropWhile (fun c => ¬ c = sep)).drop 1 := by
  induction s with
  | nil => simp [split, sjoin]
  | cons c rest ih =>
    cases h : split sep rest with
    | nil => exact absurd h (split_ne_nil sep rest)
    | cons t ts =>
      by_cases hc : c = sep
      · simp only [split, h, if_pos hc, List.tail_cons, List.dropWhile_cons]
        simp only [hc, not_true, decide_False, Bool.false_eq_true, if_false, List.drop_one,
          List.tail_cons]
        rw [← h]
        exact sjoin_split sep rest
      · simp only [split, h, if_neg hc, List.tail_cons, List.dropWhile_cons]
        simp only [hc, not_false_iff, decide_True, if_true]
        rw [h] at ih
        simpa using ih

lemma parseFirstMessage_eq (s : GoStr) :
    parseFirstMessage s = Except.ok (stripLeadingToken s) := by
  cases h : split ' ' s with
  | nil => exact absurd h (split_ne_nil ' ' s)
  | cons t ts =>
    simp only [parseFirstMessage, h, stripLeadingToken]
    have := sjoin_split_tail ' ' s
    rw [h] at this
    simp only [List.tail_cons] at this
    rw [this, List.drop_one]

lemma processMessage_spec (message mac pfx ip L0 : GoStr) (rest : List GoStr)
    (h : split '\n' message = L0 :: rest) :
    processMessage message mac pfx ip =
      Except.ok ((rest ++ [stripLeadingToken L0]).map (fun l => rewriteLine l pfx mac ip)) := by
  simp [processMessage, h, parseFirstMessage_eq]

lemma rewriteLine_eq (line pfx mac ip : GoStr) :
    rewriteLine line pfx mac ip =
      sjoin ' ' ((pfx ++ (split ' ' line).headD [] ++ macSuffix mac ip) :: (split ' ' line).tail) := by
  cases h : split ' ' line with
  | nil => exact absurd h (split_ne_nil ' ' line)
  | cons t ts => simp [rewriteLine, updateMetric, h]

/-- C1: for every envelope body whose newline split is `L0 :: rest`, the
frame decomposer returns the rewritten records in the order
`[L1, ..., LN, strippedL0]`, where the stripped first line has its leading
whitespace-delimited token removed. -/
theorem C1_frame_rotation (message mac pfx ip L0 : GoStr) (rest : List GoStr)
    (h : split '\n' message = L0 :: rest) :
    processMessage message mac pfx ip =
      Except.ok ((rest ++ [stripLeadingToken L0]).map (fun l => rewriteLine l pfx mac ip)) :=
  processMessage_spec message mac pfx ip L0 rest h

/-- Witness for C1 at the claim's two-line scenario, with the concrete
result list spelled out: temp_bed first, stripped temp_noz last. -/
theorem C1_frame_rotation_witness :
    split '\n' (str "12345 temp_noz v=1 111\ntemp_bed v=2 222") =
      str "12345 temp_noz v=1 111" :: [str "temp_bed v=2 222"] ∧
    processMessage (str "12345 temp_noz v=1 111\ntemp_bed v=2 222")
        (str "M") (str "p_") (str "1.2.3.4:99") =
      Except.ok [str "p_temp_bed,printer_mac=M,printer_address=1.2.3.4 v=2 222",
        str "p_temp_noz,printer_mac=M,printer_address=1.2.3.4 v=1 111"] :=
  ⟨by decide,
   (C1_frame_rotation (str "12345 temp_noz v=1 111\ntemp_bed v=2 222") (str "M") (str "p_")
     (str "1.2.3.4:99") (str "12345 temp_noz v=1 111") [str "temp_bed v=2 222"]
     (by decide)).trans (by decide)⟩

/-- C2 as stated fails: on a token that already carries a tag, the code
appends the identity labels after the existing tags, not before them. -/
theorem C2_label_insertion_cex :
    ¬ claimC2At (str "fan,type=print rpm=1500i 1637000000")
        (str "prusa_") (str "DEF456") (str "10.0.0.5:8514") := by
  unfold claimC2At
  decide

/-- C2 (amended): every rewritten record line has its first
space-delimited token replaced by the metric-name prefix, the original
token (measurement plus any existing tags), and then the
`,printer_mac=...,printer_address=...` labels appended at the end. -/
theorem C2_label_append (line pfx mac ip : GoStr) :
    rewriteLine line pfx mac ip =
      sjoin ' ' ((pfx ++ (split ' ' line).headD [] ++ macSuffix mac ip) :: (split ' ' line).tail) :=
  rewriteLine_eq line pfx mac ip

/-- C10: the frame decomposer is total: it always returns a nil error and
one output record per newline-split line of the body; the error branches
of `processMessage`, `parseFirstMessage` and `updateMetric` are
unreachable because `strings.Split` never returns an empty slice. -/
theorem C10_decomposer_total (message mac pfx ip : GoStr) :
    ∃ l, processMessage message mac pfx ip = Except.ok l ∧
      l.length = (split '\n' message).length := by
  cases h : split '\n' message with
  | nil => exact absurd h (split_ne_nil '\n' message)
  | cons L0 rest =>
    refine ⟨_, processMessage_spec message mac pfx ip L0 rest h, ?_⟩
    simp

/-- C3 (refuted by the code): the parser is not panic-free. On the record
`m a="` the field value is the single character `"`; both the quote-prefix
and quote-suffix tests succeed, and Go evaluates the slice `val[1:0]`,
a runtime panic that crashes the process (there is no recover below the
listener). -/
theorem C3_parser_panics :
    parseLineProtocol (str "m a=\"") = ParseOutcome.panics ∧
    typeFieldValue (str "\"") = FieldResult.panics := by decide

lemma registerMetricAux_names (p : Point) (fs : List (GoStr × FieldValue)) :
    ∀ r : Registry, ((registerMetricAux r p fs).2).map (fun u => u.name) =
      fs.map (fun kv =>
        if kv.1 = str "v" ∨ kv.1 = str "value" then p.measurement
        else p.measurement ++ str "_" ++ kv.1) := by
  induction fs with
  | nil => intro r; simp [registerMetricAux]
  | cons kv rest ih =>
    intro r
    simp only [registerMetricAux, List.map_cons, ih]
    refine congrArg (fun x => x :: _) ?_
    by_cases h1 : kv.1 = str "v" <;> by_cases h2 : kv.1 = str "value" <;>
      simp [registerMetricField, metricNameOf, h1, h2]

/-- C4: for every catalog state and every point, the registry performs one
update per field, and the metric name of the update for field key `k` is
the measurement itself when `k` is `v` or `value`, and `measurement_k`
otherwise. -/
theorem C4_metric_naming (r : Registry) (p : Point) :
    ((registerMetric r p).2).map (fun u => u.name) =
      p.fields.map (fun kv =>
        if kv.1 = str "v" ∨ kv.1 = str "value" then p.measurement
        else p.measurement ++ str "_" ++ kv.1) ∧
    ((registerMetric r p).2).length = p.fields.length := by
  refine ⟨registerMetricAux_names p p.fields r, ?_⟩
  have := congrArg List.length (registerMetricAux_names p p.fields r)
  simpa [registerMetric] using this

lemma processLines_skip (bad msg : GoStr) (hbad : parseLineProtocol bad = ParseOutcome.err msg)
    (pre : List GoStr) : ∀ (r : Registry) (post : List GoStr),
    processLines r (pre ++ bad :: post) = processLines r (pre ++ post) := by
  induction pre with
  | nil => intro r post; simp [processLines, hbad]
  | cons a as ih =>
    intro r post
    simp only [List.cons_append, processLines]
    cases hp : parseLineProtocol a <;> simp [ih]

/-- C9: any line with fewer than 2 or more than 3 top-level segments is
rejected with the format error; the malformed line `sensor value` is
rejected with a field-format error; and a line rejected with an error is
skipped by the per-line loop of `process` without affecting the
processing of the envelope's other lines. -/
theorem C9_format_errors :
    (∀ line : GoStr, (splitLine line).length < 2 ∨ (splitLine line).length > 3 →
      parseLineProtocol line = ParseOutcome.err (str "invalid udp format: " ++ line)) ∧
    parseLineProtocol (str "sensor value") =
      ParseOutcome.err (str "invalid field format: value") ∧
    (∀ (r : Registry) (pre post : List GoStr) (bad msg : GoStr),
      parseLineProtocol bad = ParseOutcome.err msg →
      processLines r (pre ++ bad :: post) = processLines r (pre ++ post)) := by
  refine ⟨?_, by decide, fun r pre post bad msg h => processLines_skip bad msg h pre r post⟩
  intro line h
  simp [parseLineProtocol, h]

/-- Witness for C9: a one-segment line is rejected with the format error,
and the envelope `[m v=1, sensor value, k v=2]` registers the same
updates as `[m v=1, k v=2]`. -/
theorem C9_format_errors_witness :
    ((splitLine (str "sensor")).length < 2 ∨ (splitLine (str "sensor")).length > 3) ∧
    parseLineProtocol (str "sensor") = ParseOutcome.err (str "invalid udp format: " ++ str "sensor") ∧
    processLines initState [str "m v=1", str "sensor value", str "k v=2"] =
      processLines initState [str "m v=1", str "k v=2"] :=
  ⟨by decide, C9_format_errors.1 (str "sensor") (by decide),
   C9_format_errors.2.2 initState [str "m v=1"] [str "k v=2"] (str "sensor value")
     (str "invalid field format: value") (by decide)⟩

lemma quote_singleton (v : GoStr) (hpre : str "\"" <+: v) (hl : v.length < 2) :
    v = str "\"" := by
  obtain ⟨t, rfl⟩ := hpre
  have h1 : (str "\"").length = 1 := rfl
  rw [List.length_append, h1] at hl
  have ht : t = [] := List.eq_nil_of_length_eq_zero (by omega)
  subst ht
  simp

lemma typeTail_eq (v : GoStr) :
    (match goParseBool v with
     | some b => FieldResult.val (FieldValue.boolean b)
     | none =>
       match goParseFloat v with
       | some f => FieldResult.val (FieldValue.float64 f)
       | none =>
         if (str "\"").isPrefixOf v ∧ (str "\"").isSuffixOf v then
           if v.length < 2 then FieldResult.panics
           else FieldResult.val (FieldValue.strv ((v.drop 1).dropLast))
         else FieldResult.val (FieldValue.strv v)) =
    (if v = str "1" ∨ v = str "t" ∨ v = str "T" ∨ v = str "TRUE" ∨
        v = str "true" ∨ v = str "True" then
      FieldResult.val (FieldValue.boolean true)
    else if v = str "0" ∨ v = str "f" ∨ v = str "F" ∨ v = str "FALSE" ∨
        v = str "false" ∨ v = str "False" then
      FieldResult.val (FieldValue.boolean false)
    else if (goParseFloat v).isSome then
      FieldResult.val (FieldValue.float64 ((goParseFloat v).getD GoFloat.nan))
    else if v = str "\"" then FieldResult.panics
    else if (str "\"").isPrefixOf v ∧ (str "\"").isSuffixOf v then
      FieldResult.val (FieldValue.strv ((v.drop 1).dropLast))
    else FieldResult.val (FieldValue.strv v)) := by
  by_cases h1 : v = str "1" ∨ v = str "t" ∨ v = str "T" ∨ v = str "TRUE" ∨
      v = str "true" ∨ v = str "True"
  · simp [goParseBool, h1]
  · by_cases h2 : v = str "0" ∨ v = str "f" ∨ v = str "F" ∨ v = str "FALSE" ∨
        v = str "false" ∨ v = str "False"
    · simp [goParseBool, h1, h2]
    · simp only [goParseBool, h1, h2, if_neg, if_false]
      cases hf : goParseFloat v with
      | some f => simp [hf]
      | none =>
        simp only [hf, Option.isSome_none, Bool.false_eq_true, if_false]
        by_cases hq : v = str "\""
        · subst hq; decide
        · by_cases hp : str "\"" <+: v ∧ str "\"" <:+ v
          · have hlen : ¬ v.length < 2 := fun hl => hq (quote_singleton v hp.1 hl)
            simp [List.isPrefixOf_iff_prefix, List.isSuffixOf_iff_suffix, hp, hq, hlen]
          · simp [List.isPrefixOf_iff_prefix, List.isSuffixOf_iff_suffix, hp, hq]

/-- C5 as stated fails: case (b) of the claim admits only the exact
literals `true` and `false`, but Go's `strconv.ParseBool` also accepts
`t`, so the parser stores the field value `t` as a boolean while the
claim types it as a raw string. -/
theorem C5_value_typing_cex : ¬ claimC5At (str "t") := by
  unfold claimC5At
  decide

/-- C5 (amended): the typing order is (a) trailing `i` with an in-range
signed 64-bit integer, (b) any literal accepted by `strconv.ParseBool`,
(c) a parseable 64-bit float, (d) a surrounding pair of double quotes with
the quotes stripped — except that the single-character value `"` panics —
and (e) the raw string, never an error. -/
theorem C5_value_typing_amended (v : GoStr) : typeFieldValue v = specC5Amended v := by
  unfold typeFieldValue specC5Amended
  by_cases hs : (str "i").isSuffixOf v
  · cases hp : goParseInt64 v.dropLast with
    | some n => simp [hs, hp]
    | none =>
      simp only [hs, if_true, hp, Option.isSome_none, Bool.false_eq_true, and_false, if_false]
      exact typeTail_eq v
  · simp only [hs, Bool.false_eq_true, if_false, false_and]
    exact typeTail_eq v

/-- C7: the value coercer is total and maps integers and floats through
unchanged, `true` to 1 and `false` to 0, nil to 0, every string outside
the material table to 0, the ten materials to 1..10 and the sentinel `---`
to -1, never signalling an error. -/
theorem C7_value_coercer :
    (∀ s : GoStr, ¬ s ∈ materialTable → toFloat64 (GoValue.strv s) = GoFloat.finite 0) ∧
    (∀ n : Int, toFloat64 (GoValue.int64 n) = GoFloat.finite n) ∧
    (∀ f : GoFloat, toFloat64 (GoValue.float64 f) = f) ∧
    toFloat64 (GoValue.boolean true) = GoFloat.finite 1 ∧
    toFloat64 (GoValue.boolean false) = GoFloat.finite 0 ∧
    toFloat64 GoValue.null = GoFloat.finite 0 ∧
    toFloat64 (GoValue.strv (str "PLA")) = GoFloat.finite 1 ∧
    toFloat64 (GoValue.strv (str "PETG")) = GoFloat.finite 2 ∧
    toFloat64 (GoValue.strv (str "ASA")) = GoFloat.finite 3 ∧
    toFloat64 (GoValue.strv (str "PC")) = GoFloat.finite 4 ∧
    toFloat64 (GoValue.strv (str "PVB")) = GoFloat.finite 5 ∧
    toFloat64 (GoValue.strv (str "ABS")) = GoFloat.finite 6 ∧
    toFloat64 (GoValue.strv (str "HIPS")) = GoFloat.finite 7 ∧
    toFloat64 (GoValue.strv (str "PP")) = GoFloat.finite 8 ∧
    toFloat64 (GoValue.strv (str "FLEX")) = GoFloat.finite 9 ∧
    toFloat64 (GoValue.strv (str "PA")) = GoFloat.finite 10 ∧
    toFloat64 (GoValue.strv (str "---")) = GoFloat.finite (-1) := by
  refine ⟨?_, fun n => rfl, fun f => rfl, rfl, rfl, rfl, by decide, by decide, by decide,
    by decide, by decide, by decide, by decide, by decide, by decide, by decide, by decide⟩
  intro s hs
  simp only [materialTable, List.mem_cons, List.not_mem_nil, or_false] at hs
  push_neg at hs
  obtain ⟨h1, h2, h3, h4, h5, h6, h7, h8, h9, h10, h11⟩ := hs
  simp [toFloat64, h1, h2, h3, h4, h5, h6, h7, h8, h9, h10, h11]

/-- Witness for C7: the unrecognized material string `Exotic` coerces
to 0. -/
theorem C7_value_coercer_witness :
    ¬ (str "Exotic") ∈ materialTable ∧
    toFloat64 (GoValue.strv (str "Exotic")) = GoFloat.finite 0 :=
  ⟨by decide, C7_value_coercer.1 (str "Exotic") (by decide)⟩

/-- C8 as stated fails: the record is a whole line, so its first top-level
segment (the quoted pair for `a`) becomes the measurement segment and the
parsed point has exactly one field, not two. -/
theorem C8_escaped_quote_cex : ¬ claimC8 := by
  intro h
  obtain ⟨-, p, hp, hlen, -, -⟩ := h
  have he : parseLineProtocol recC8 = ParseOutcome.ok ptC8 := by decide
  rw [he] at hp
  injection hp with hpe
  rw [← hpe] at hlen
  exact absurd hlen (by decide)

/-- C8 (amended): the record tokenizes into exactly the two top-level
segments `a="x\"y"` and `b=1i` (the escaped quote does not terminate the
quoted region); parsed as a line it yields measurement `a="x\"y"` with the
single field `b = 1`; and when the two pairs form the comma-separated
fields segment of a line, `a` is stored as `x\"y` — surrounding quotes
stripped, the backslash retained — and `b` as the integer 1. -/
theorem C8_escaped_quote_amended :
    splitLine recC8 = [str "a=\"x\\\"y\"", str "b=1i"] ∧
    parseLineProtocol recC8 = ParseOutcome.ok ptC8 ∧
    parseLineProtocol (str "m a=\"x\\\"y\",b=1i") = ParseOutcome.ok ptC8Fields := by decide

lemma mapGet_mapSet_self {α : Type} (m : List (GoStr × α)) (k : GoStr) (v : α) :
    mapGet (mapSet m k v) k = some v := by
  induction m with
  | nil => simp [mapSet, mapGet]
  | cons kv rest ih =>
    obtain ⟨k0, v0⟩ := kv
    by_cases h : k0 = k
    · simp [mapSet, mapGet, h]
    · simp [mapSet, mapGet, h, ih]

lemma mapGet_mapSet_ne {α : Type} (m : List (GoStr × α)) (k k' : GoStr) (v : α)
    (h : ¬ k = k') : mapGet (mapSet m k v) k' = mapGet m k' := by
  induction m with
  | nil => simp [mapSet, mapGet, h]
  | cons kv rest ih =>
    obtain ⟨k0, v0⟩ := kv
    by_cases h0 : k0 = k
    · subst h0
      simp [mapSet, mapGet, h]
    · have h' : ¬ k' = k := fun he => h he.symm
      by_cases h1 : k0 = k'
      · simp [mapSet, mapGet, h0, h1, h']
      · simp [mapSet, mapGet, h0, h1, ih]

lemma labelsCovered_initState : labelsCovered initState := by
  intro n hn
  simp [initState, mapGet] at hn

lemma catalogStep_inv (r : Registry) (p : Point) (mn : GoStr) (hI : labelsCovered r) :
    labelsCovered (catalogStep r p mn) := by
  unfold catalogStep
  by_cases hm : mn ∈ r.metrics
  · simpa [hm] using hI
  · simp only [hm, if_false]
    intro n hn
    by_cases he : mn = n
    · subst he; simp
    · rw [mapGet_mapSet_ne _ _ _ _ he] at hn
      exact List.mem_append_left _ (hI n hn)

lemma catalogStep_labels_frozen (r : Registry) (p : Point) (mn name : GoStr)
    (ls : List GoStr) (hI : labelsCovered r) (h : mapGet r.labels name = some ls) :
    mapGet (catalogStep r p mn).labels name = some ls := by
  unfold catalogStep
  by_cases hm : mn ∈ r.metrics
  · simpa [hm] using h
  · simp only [hm, if_false]
    have hne : ¬ mn = name := by
      intro he
      subst he
      exact hm (hI mn (by simp [h]))
    rw [mapGet_mapSet_ne _ _ _ _ hne]
    exact h

lemma registerMetricField_update (r : Registry) (p : Point) (kv : GoStr × FieldValue)
    (name : GoStr) (ls : List GoStr) (hI : labelsCovered r)
    (h : mapGet r.labels name = some ls)
    (hn : (registerMetricField r p kv).2.name = name) :
    (registerMetricField r p kv).2.labelValues =
      ls.map (fun l => (mapGet p.tags l).getD []) := by
  simp only [registerMetricField] at hn ⊢
  rw [hn, catalogStep_labels_frozen r p name name ls hI h]
  rfl

lemma registerMetricAux_freeze (p : Point) (fs : List (GoStr × FieldValue)) :
    ∀ (r : Registry) (name : GoStr) (ls : List GoStr), labelsCovered r →
    mapGet r.labels name = some ls →
    labelsCovered (registerMetricAux r p fs).1 ∧
    mapGet (registerMetricAux r p fs).1.labels name = some ls ∧
    ∀ u ∈ (registerMetricAux r p fs).2, u.name = name →
      u.labelValues = ls.map (fun l => (mapGet u.pt.tags l).getD []) := by
  induction fs with
  | nil =>
    intro r name ls hI h
    exact ⟨hI, h, by simp [registerMetricAux]⟩
  | cons kv rest ih =>
    intro r name ls hI h
    have hI' : labelsCovered (registerMetricField r p kv).1 :=
      catalogStep_inv r p (metricNameOf p kv.1) hI
    have h' : mapGet (registerMetricField r p kv).1.labels name = some ls :=
      catalogStep_labels_frozen r p (metricNameOf p kv.1) name ls hI h
    obtain ⟨hI2, h2, hu2⟩ := ih (registerMetricField r p kv).1 name ls hI' h'
    refine ⟨hI2, h2, ?_⟩
    intro u hu hn
    simp only [registerMetricAux, List.mem_cons] at hu
    rcases hu with rfl | hmem
    · exact registerMetricField_update r p kv name ls hI h hn
    · exact hu2 u hmem hn

lemma registerMetricAux_inv (p : Point) (fs : List (GoStr × FieldValue)) :
    ∀ r : Registry, labelsCovered r → labelsCovered (registerMetricAux r p fs).1 := by
  induction fs with
  | nil => intro r hI; exact hI
  | cons kv rest ih =>
    intro r hI
    exact ih (registerMetricField r p kv).1 (catalogStep_inv r p (metricNameOf p kv.1) hI)

lemma runPoints_inv (pts : List Point) : ∀ r : Registry,
    labelsCovered r → labelsCovered (runPoints r pts).1 := by
  induction pts with
  | nil => intro r hI; exact hI
  | cons p ps ih =>
    intro r hI
    exact ih (registerMetric r p).1 (registerMetricAux_inv p p.fields r hI)

lemma runPoints_freeze (pts : List Point) :
    ∀ (r : Registry) (name : GoStr) (ls : List GoStr), labelsCovered r →
    mapGet r.labels name = some ls →
    mapGet (runPoints r pts).1.labels name = some ls ∧
    ∀ u ∈ (runPoints r pts).2, u.name = name →
      u.labelValues = ls.map (fun l => (mapGet u.pt.tags l).getD []) := by
  induction pts with
  | nil =>
    intro r name ls hI h
    exact ⟨h, by simp [runPoints]⟩
  | cons p ps ih =>
    intro r name ls hI h
    obtain ⟨hI1, h1, hu1⟩ := registerMetricAux_freeze p p.fields r name ls hI h
    obtain ⟨h2, hu2⟩ := ih (registerMetric r p).1 name ls hI1 h1
    refine ⟨h2, ?_⟩
    intro u hu hn
    simp only [runPoints, List.mem_append] at hu
    rcases hu with hmem | hmem
    · exact hu1 u hmem hn
    · exact hu2 u hmem hn

lemma runPoints_append_fst (xs ys : List Point) : ∀ r : Registry,
    (runPoints r (xs ++ ys)).1 = (runPoints (runPoints r xs).1 ys).1 := by
  induction xs with
  | nil => intro r; simp [runPoints]
  | cons p ps ih =>
    intro r
    simp only [List.cons_append, runPoints]
    exact ih (registerMetric r p).1

/-- C6: once a metric name has been created by a sequence of
`registerMetric` calls starting from the initialized catalog, its frozen
label-name list never changes, and every later update to that name
resolves its label values by looking up, for each frozen label name in
order, the current point's tag value with the empty string as fallback
(tag keys outside the frozen schema are ignored). -/
theorem C6_frozen_label_schema (pre post : List Point) (name : GoStr) (ls : List GoStr)
    (h : mapGet (runPoints initState pre).1.labels name = some ls) :
    mapGet (runPoints initState (pre ++ post)).1.labels name = some ls ∧
    ∀ u ∈ (runPoints (runPoints initState pre).1 post).2, u.name = name →
      u.labelValues = ls.map (fun l => (mapGet u.pt.tags l).getD []) := by
  have hIpre : labelsCovered (runPoints initState pre).1 :=
    runPoints_inv pre initState labelsCovered_initState
  obtain ⟨h2, hu⟩ := runPoints_freeze post (runPoints initState pre).1 name ls hIpre h
  refine ⟨?_, hu⟩
  rw [runPoints_append_fst pre post initState]
  exact h2

/-- Witness for C6: the point `pointA` freezes metric `m` with schema
`[t]`; the later point `pointB` carries only the unrelated tag `other`,
and its update resolves the frozen label `t` to the empty string. -/
theorem C6_frozen_label_schema_witness :
    mapGet (runPoints initState [pointA]).1.labels (str "m") = some [str "t"] ∧
    (mapGet (runPoints initState ([pointA] ++ [pointB])).1.labels (str "m") = some [str "t"] ∧
     ∀ u ∈ (runPoints (runPoints initState [pointA]).1 [pointB]).2, u.name = str "m" →
       u.labelValues = [str "t"].map (fun l => (mapGet u.pt.tags l).getD [])) :=
  ⟨by decide, C6_frozen_label_schema [pointA] [pointB] (str "m") [str "t"] (by decide)⟩
